import Mathlib

/-!
Shallow embedding of the S/Kademlia membership core (Go package `skademlia`,
file `protocol.go` in `src/unnamed/part_000`) together with the breadth-first
`BootstrapPeers` routine (`src/network/rpc.go`).

Go byte strings are modelled as `List Nat`; machine bytes are values `< 256`
but the operations below are total on all of `List Nat`.  Concurrency in the
source (goroutines, channels, mutexes) is embedded as explicit state passing
under one serialization of the concurrent schedule; external effects (the
transport, the BLAKE2b hash, remote peers) are oracles passed as function
parameters.  Parts of the repository that are referenced by `protocol.go` but
whose sources are not available (the routing table, the identity codec and the
crypto puzzles) are modelled from the specification and are marked
`Modelled from the spec:` in their doc comments.
-/

namespace Skademlia

/-- Go byte strings (`[]byte`, `[32]byte`, and Go `string`s, which are byte
strings) are modelled as lists of naturals. -/
abbrev Bytes := List Nat

/-- Go's `xor(a, b)` helper: pointwise XOR of two byte strings. -/
def xorBytes (a b : Bytes) : Bytes :=
  List.zipWith (fun x y => x ^^^ y) a b

/-- Go's `bytes.Compare`: lexicographic comparison of byte strings.  On the
fixed-width 32-byte checksums of the source this coincides with comparison of
the big-endian unsigned integers they denote. -/
def bytesCompare : Bytes → Bytes → Ordering
  | [], [] => .eq
  | [], _ :: _ => .lt
  | _ :: _, [] => .gt
  | a :: as, b :: bs =>
    if a < b then .lt else if b < a then .gt else bytesCompare as bs

/-- Bit `i` (counting from the most significant bit of the first byte) of a
byte string; bits past the end read as zero. -/
def bitAt (bs : Bytes) (i : Nat) : Nat :=
  ((bs.getD (i / 8) 0) >>> (7 - i % 8)) &&& 1

/-- Modelled from the spec: the first `c` bits of a byte string are all
zero (the puzzle test; `prefixLen`-style leading-zero check). -/
def firstBitsZero (c : Nat) (bs : Bytes) : Bool :=
  (List.range c).all fun i => bitAt bs i == 0

/-- Modelled from the spec: `prefixDiff(a, b, n)` is the number of bit
positions within the first `n` bits at which `a` and `b` differ. -/
def prefixDiff (a b : Bytes) (n : Nat) : Nat :=
  ((List.range n).filter fun i => bitAt a i != bitAt b i).length

/-- Modelled from the spec: `verifyPuzzle(checksum, nonce, c1, c2)` holds iff
the first `c1` bits of `checksum` are zero (static puzzle) and the first `c2`
bits of `H(checksum XOR nonce)` are zero (dynamic puzzle).  `H` abstracts the
BLAKE2b-256 hash. -/
def verifyPuzzle (H : Bytes → Bytes) (checksum nonce : Bytes) (c1 c2 : Nat) : Bool :=
  firstBitsZero c1 checksum && firstBitsZero c2 (H (xorBytes checksum nonce))

/-- Modelled from the spec: `getBucketID(a, b)` is the index of the most
significant bit at which `a` and `b` differ, i.e. the length of their common
bit prefix; `256` (never a valid bucket) when the first 256 bits agree. -/
def getBucketID (a b : Bytes) : Nat :=
  (((List.range 256).find? fun i => bitAt a i != bitAt b i).getD 256)

/-- An S/Kademlia identifier: public key, dynamic-puzzle nonce, the BLAKE2b
checksum of the public key, and the owner-advertised transport address. -/
structure ID where
  publicKey : Bytes
  nonce : Bytes
  checksum : Bytes
  address : Bytes
deriving DecidableEq

/-- The Go zero value of the `ID` struct (fixed 32-byte arrays zeroed, empty
address). -/
def goZeroID : ID :=
  { publicKey := List.replicate 32 0
    nonce := List.replicate 32 0
    checksum := List.replicate 32 0
    address := [] }

/-- Decode failures of the identity codec. -/
inductive DecodeErr
  | shortPublicKey
  | shortNonce
  | missingAddressLen
  | shortAddress
deriving DecidableEq

/-- Modelled from the spec: `UnmarshalID`, Go style.  Reads a 32-byte public
key, a 32-byte nonce and a one-byte-length-prefixed address; the checksum is
computed as `H(publicKey)`, not transmitted.  Returns the (possibly partially
filled, Go named-return style) `ID`, the unconsumed input, and the error if
any. -/
def unmarshalIDGo (H : Bytes → Bytes) (buf : Bytes) : ID × Bytes × Option DecodeErr :=
  if buf.length < 32 then (goZeroID, buf, some .shortPublicKey)
  else
    let pk := buf.take 32
    let rest := buf.drop 32
    let id1 := { goZeroID with publicKey := pk, checksum := H pk }
    if rest.length < 32 then (id1, rest, some .shortNonce)
    else
      let id2 := { id1 with nonce := rest.take 32 }
      match rest.drop 32 with
      | [] => (id2, [], some .missingAddressLen)
      | n :: rest2 =>
        if rest2.length < n then (id2, rest2, some .shortAddress)
        else ({ id2 with address := rest2.take n }, rest2.drop n, none)

/-- Modelled from the spec: `UnmarshalID` as consumed by `Ping`: either the
decoded ID or a decode error. -/
def unmarshalID (H : Bytes → Bytes) (buf : Bytes) : Except DecodeErr ID :=
  match unmarshalIDGo H buf with
  | (id, _, none) => .ok id
  | (_, _, some e) => .error e

/-- Modelled from the spec: decode `n` consecutive IDs. -/
def unmarshalIDsAux (H : Bytes → Bytes) : Nat → Bytes → Except DecodeErr (List ID)
  | 0, _ => .ok []
  | n + 1, buf =>
    match unmarshalIDGo H buf with
    | (_, _, some e) => .error e
    | (id, rest, none) =>
      match unmarshalIDsAux H n rest with
      | .error e => .error e
      | .ok ids => .ok (id :: ids)

/-- Modelled from the spec: `UnmarshalIDs` — a one-byte count followed by that
many ID encodings.  No bound other than the count byte is enforced. -/
def unmarshalIDs (H : Bytes → Bytes) (buf : Bytes) : Except DecodeErr (List ID) :=
  match buf with
  | [] => .error .missingAddressLen
  | n :: rest => unmarshalIDsAux H n rest

/-- What the `select` in `Ping`/`Lookup` observed: session cancellation, the
RPC timer firing first, or an inbound frame with the given payload. -/
inductive RecvEvent
  | cancelled
  | timeout
  | data (buf : Bytes)
deriving DecidableEq

/-- Errors returned by the `Ping` and `Lookup` RPCs (the wrapped `pkg/errors`
messages of the source are abstracted to their kinds). -/
inductive RPCError
  | sendFailed
  | disconnect
  | timeout
  | decode (e : DecodeErr)
  | invalidPuzzle
  | tooSimilar
deriving DecidableEq

/-- `Protocol.Ping` (source lines 126-160), data path.  `sendOk` is whether
`mux.Send(0x03, nil)` succeeded; `ev` is what the `select` observed.  On data
the pong is unmarshalled, the crypto puzzle verified, and the prefix-diff gate
checked; only then is the ID returned. -/
def Ping (H : Bytes → Bytes) (selfCk : Bytes) (c1 c2 pdLen pdMin : Nat)
    (sendOk : Bool) (ev : RecvEvent) : Except RPCError ID :=
  if !sendOk then .error .sendFailed
  else
    match ev with
    | .cancelled => .error .disconnect
    | .timeout => .error .timeout
    | .data buf =>
      match unmarshalID H buf with
      | .error e => .error (.decode e)
      | .ok id =>
        if !verifyPuzzle H id.checksum id.nonce c1 c2 then .error .invalidPuzzle
        else if prefixDiff selfCk id.checksum pdLen < pdMin then .error .tooSimilar
        else .ok id

/-- `Protocol.Lookup` (source lines 162-182), data path: send the marshalled
target, await a `0x04` frame, and return whatever list decodes — the source
performs no length check on the decoded list. -/
def Lookup (H : Bytes → Bytes) (sendOk : Bool) (ev : RecvEvent) :
    Except RPCError (List ID) :=
  if !sendOk then .error .sendFailed
  else
    match ev with
    | .cancelled => .error .disconnect
    | .timeout => .error .timeout
    | .data buf =>
      match unmarshalIDs H buf with
      | .error e => .error (.decode e)
      | .ok ids => .ok ids

/-! ### The routing table (modelled from the spec, its source file is absent) -/

/-- The routing table: 256 k-buckets (indexed through `Table.bucket`, absent
indices reading as empty), the node's own ID, and the bucket capacity
`K = 16`. -/
structure Table where
  self : ID
  buckets : List (List ID)
  bucketSize : Nat
deriving DecidableEq

/-- Bucket `i` of the table (MRU at the front, LRU at the back). -/
def Table.bucket (t : Table) (i : Nat) : List ID :=
  t.buckets.getD i []

/-- Replace bucket `i`. -/
def Table.setBucket (t : Table) (i : Nat) (b : List ID) : Table :=
  { t with buckets := t.buckets.set i b }

/-- Remove the first entry whose checksum is `ck` (IDs are equal iff their
checksums are equal). -/
def deleteByCk (ck : Bytes) : List ID → List ID
  | [] => []
  | x :: xs => if x.checksum = ck then xs else x :: deleteByCk ck xs

/-- Result of `Table.Update`. -/
inductive UpdateResult
  | ok
  | bucketFull
deriving DecidableEq

/-- Modelled from the spec: `Table.Update(id)`.  An ID with the node's own
checksum is never inserted; an ID already present in its bucket is moved to
the front (MRU); otherwise it is inserted at the front if the bucket holds
fewer than `bucketSize` entries, and `bucketFull` is reported without
modifying the bucket when it does not fit. -/
def tableUpdate (t : Table) (id : ID) : Table × UpdateResult :=
  if id.checksum = t.self.checksum then (t, .ok)
  else
    match (t.bucket (getBucketID t.self.checksum id.checksum)).find?
        (fun x => x.checksum == id.checksum) with
    | some x =>
      (t.setBucket (getBucketID t.self.checksum id.checksum)
        (x :: deleteByCk id.checksum (t.bucket (getBucketID t.self.checksum id.checksum))), .ok)
    | none =>
      if (t.bucket (getBucketID t.self.checksum id.checksum)).length < t.bucketSize then
        (t.setBucket (getBucketID t.self.checksum id.checksum)
          (id :: t.bucket (getBucketID t.self.checksum id.checksum)), .ok)
      else (t, .bucketFull)

/-- Modelled from the spec: `Table.Delete(bucket, id)` — remove the entry with
`id`'s checksum from bucket `i`. -/
def tableDelete (t : Table) (i : Nat) (id : ID) : Table :=
  t.setBucket i (deleteByCk id.checksum (t.bucket i))

/-- Deletion keyed by checksum alone, the effect of `evict` (which only ever
reads `id.checksum`). -/
def evictCk (t : Table) (ck : Bytes) : Table :=
  t.setBucket (getBucketID t.self.checksum ck) (deleteByCk ck (t.bucket (getBucketID t.self.checksum ck)))

/-- `Protocol.evict` (source lines 413-418): delete `id` from the bucket
indexed by `getBucketID(self.checksum, id.checksum)`. -/
def evict (t : Table) (id : ID) : Table :=
  evictCk t id.checksum

/-- The non-strict "closer to `t` in XOR metric" relation used by the
`sort.Slice` call of `FindNode` and by `FindClosest`. -/
def distLe (t : Bytes) (x y : ID) : Prop :=
  bytesCompare (xorBytes x.checksum t) (xorBytes y.checksum t) ≠ Ordering.gt

instance distLe.decidableRel (t : Bytes) : DecidableRel (distLe t) := fun x y =>
  inferInstanceAs (Decidable (bytesCompare (xorBytes x.checksum t) (xorBytes y.checksum t) ≠ Ordering.gt))

/-- Modelled from the spec: `Table.FindClosest(target, k)` — up to `k` IDs
drawn from the whole table, sorted by ascending XOR distance to
`target.checksum`, with the node's own ID excluded. -/
def FindClosest (t : Table) (target : ID) (k : Nat) : List ID :=
  (List.insertionSort (distLe target.checksum)
    (t.buckets.flatten.filter fun id => !(id.checksum == t.self.checksum))).take k

/-! ### Peer registry and protocol state -/

/-- Transport session handles. -/
abbrev Session := Nat

/-- The peer registry: an association list `checksum ↦ session` (the Go map
holds at most one session per checksum). -/
abbrev Registry := List (Bytes × Session)

/-- Go `b.peers[ck]` lookup. -/
def regFind (ps : Registry) (ck : Bytes) : Option Session :=
  (ps.find? fun p => p.1 == ck).map Prod.snd

/-- Go `delete(b.peers, ck)`. -/
def regErase (ps : Registry) (ck : Bytes) : Registry :=
  ps.filter fun p => !(p.1 == ck)

/-- Go `b.peers[ck] = s`. -/
def regInsert (ps : Registry) (ck : Bytes) (s : Session) : Registry :=
  (ck, s) :: regErase ps ck

/-- The mutable state of a `Protocol` value: the routing table and the peer
registry. -/
structure PState where
  table : Table
  peers : Registry
deriving DecidableEq

/-- Causes of transport errors as seen by `errors.Cause` (the interceptor
compares the cause against `noise.ErrTimeout`). -/
inductive Cause
  | errTimeout
  | errDisconnect
  | other
deriving DecidableEq

/-- A transport error delivered to the interceptor: whether it is a
`net.Error` whose `Timeout()` holds, and its `errors.Cause`. -/
structure TransportError where
  netTimeout : Bool
  cause : Cause
deriving DecidableEq

/-- The error interceptor installed at handshake completion (source lines
256-268): always drop the peer's registry entry; additionally evict its ID
from the table when the error is a transport-level net timeout, or when its
cause is `noise.ErrTimeout`. -/
def interceptErrors (st : PState) (id : ID) (e : TransportError) : PState :=
  let st1 : PState := { st with peers := regErase st.peers id.checksum }
  if e.netTimeout then { st1 with table := evict st1.table id }
  else if e.cause = Cause.errTimeout then { st1 with table := evict st1.table id }
  else st1

/-- The serialized effect of `lastp.Disconnect(errors.Wrap(noise.ErrTimeout, …))`
inside `Protocol.Update`: the disconnected session's interceptor (installed by
its own handshake, closing over an ID with the session's registry checksum)
runs with an error whose cause is `noise.ErrTimeout`, so it erases the
registry entry and evicts that checksum from the table. -/
def disconnectTimeout (st : PState) (ck : Bytes) : PState :=
  { table := evictCk st.table ck, peers := regErase st.peers ck }

/-- What one iteration of `Protocol.Update`'s retry loop did. -/
inductive LoopAct
  | deleteStale
  | disconnectPingFailed
  | disconnectBadID
deriving DecidableEq

/-- The error `Protocol.Update` returns when the bucket is full of live,
authenticated peers (a wrap of `noise.ErrDisconnect`). -/
inductive UpdateErr
  | cannotEvict
deriving DecidableEq

/-- Outcome of one iteration of `Protocol.Update`'s loop body. -/
inductive StepOutcome
  | finished (res : Option UpdateErr) (st : PState)
  | retry (act : LoopAct) (st : PState)
  | crash
deriving DecidableEq

/-- One iteration of `Protocol.Update` (source lines 281-318).  `pingSess s`
is the result of `b.Ping` on session `s`'s context (`none` = ping error).
`crash` marks the nil dereference Go would perform if `bucket.Back()` were
empty. -/
def updateStep (pingSess : Session → Option ID) (st : PState) (id : ID) : StepOutcome :=
  match tableUpdate st.table id with
  | (t, .ok) => .finished none { st with table := t }
  | (_, .bucketFull) =>
    match (st.table.bucket (getBucketID st.table.self.checksum id.checksum)).getLast? with
    | none => .crash
    | some lastid =>
      match regFind st.peers lastid.checksum with
      | none =>
        .retry .deleteStale
          { st with
            table := tableDelete st.table (getBucketID st.table.self.checksum id.checksum) lastid }
      | some s =>
        match pingSess s with
        | none => .retry .disconnectPingFailed (disconnectTimeout st lastid.checksum)
        | some pid =>
          if pid.checksum ≠ lastid.checksum ∨ pid.nonce ≠ lastid.nonce ∨ pid.address ≠ lastid.address then
            .retry .disconnectBadID (disconnectTimeout st lastid.checksum)
          else
            .finished (some .cannotEvict) st

/-- Result of running `Protocol.Update` to completion under a fuel bound:
`done` is a return from the Go function, `crash` the nil dereference, `spin`
fuel exhaustion with the loop still running. -/
inductive URes
  | done (res : Option UpdateErr) (st : PState)
  | crash
  | spin
deriving DecidableEq

/-- `Protocol.Update` (source lines 281-318): iterate the loop body until the
table accepts the ID or the eviction probe rejects it. -/
def protocolUpdate (pingSess : Session → Option ID) : Nat → PState → ID → URes
  | 0, _, _ => .spin
  | fuel + 1, st, id =>
    match updateStep pingSess st id with
    | .finished r st1 => .done r st1
    | .crash => .crash
    | .retry _ st1 => protocolUpdate pingSess fuel st1 id

/-! ### PeerByID and the handshake's address reconciliation -/

/-- The transport oracles consumed by `PeerByID`: `node.PeerByAddr` and
`node.Dial`, both keyed by address. -/
structure DialEnv where
  peerByAddr : Bytes → Option Session
  dial : Bytes → Option Session

/-- `Protocol.PeerByID` (source lines 97-120): return the registered session
for the checksum if any, else an already-open session to the address, else
dial; a failed dial evicts the ID from the table and yields no session. -/
def peerByID (env : DialEnv) (st : PState) (id : ID) : Option Session × PState :=
  match regFind st.peers id.checksum with
  | some s => (some s, st)
  | none =>
    match env.peerByAddr id.address with
    | some s => (some s, st)
    | none =>
      match env.dial id.address with
      | some s => (some s, st)
      | none => (none, { st with table := evict st.table id })

/-- Observable actions of the handshake's address-reconciliation segment. -/
inductive HAct
  | reachDial
  | disconnectReach (s : Session)
deriving DecidableEq

/-- Result of the reconciliation segment: the returned error if any, the
protocol state afterwards, and the actions taken. -/
structure Recon where
  result : Option RPCError
  state : PState
  acts : List HAct
deriving DecidableEq

/-- The handshake segment after a successful `Ping` (source lines 234-250):
when the checksum is not yet registered and the session's transport address
differs from `id.address`, reach-dial via `PeerByID`; a failed reach yields
`noise.ErrTimeout`, a successful reach session is disconnected at once; in
all non-failing paths the original session `sess` is then registered. -/
def addressReconciliation (env : DialEnv) (st : PState) (sessionAddr : Bytes)
    (sess : Session) (id : ID) : Recon :=
  let existed := (regFind st.peers id.checksum).isSome
  if !existed && !(sessionAddr == id.address) then
    match peerByID env st id with
    | (none, st1) => ⟨some .timeout, st1, [.reachDial]⟩
    | (some r, st1) =>
      ⟨none, { st1 with peers := regInsert st1.peers id.checksum sess },
        [.reachDial, .disconnectReach r]⟩
  else
    ⟨none, { st with peers := regInsert st.peers id.checksum sess }, []⟩

/-! ### The inbound server loop's `0x04` LOOKUP branch -/

/-- Why the server loop disconnects the session. -/
inductive DiscReason
  | invalidLookupRequest (e : DecodeErr)
  | sendLookupRespFailed
deriving DecidableEq

/-- Observable actions of the server loop while handling one frame. -/
inductive SAct
  | disconnect (r : DiscReason)
  | send (opcode : Nat) (ids : List ID)
deriving DecidableEq

/-- The `0x04` LOOKUP branch of the per-session server loop (source lines
197-206): unmarshal the target — on failure disconnect with a descriptive
error, but (there is no `continue` in the source) fall through regardless and
send the marshalled `FindClosest(target, bucketSize)` for whatever partial
`target` the failed decode left behind; a failed send disconnects too. -/
def handleLookupFrame (H : Bytes → Bytes) (t : Table) (sendOk : Bool) (buf : Bytes) :
    List SAct :=
  let dec := unmarshalIDGo H buf
  let pre : List SAct :=
    match dec.2.2 with
    | some e => [.disconnect (.invalidLookupRequest e)]
    | none => []
  pre ++ [.send 4 (FindClosest t dec.1 t.bucketSize)] ++
    (if sendOk then [] else [.disconnect .sendLookupRespFailed])

/-! ### Iterative FindNode -/

/-- The shared state of a `FindNode` run: the visited checksum set and the
accumulated results (both guarded by one mutex in the source). -/
structure FNState where
  visited : List Bytes
  results : List ID
deriving DecidableEq

/-- Merge one returned ID into the shared state and the group's private queue
(source lines 382-389): an ID not yet visited is marked visited, appended to
the shared results and pushed on the queue. -/
def fnStep (sq : FNState × List ID) (rid : ID) : FNState × List ID :=
  if rid.checksum ∈ sq.1.visited then sq
  else
    ({ visited := rid.checksum :: sq.1.visited, results := sq.1.results ++ [rid] },
      sq.2 ++ [rid])

/-- Merge one `Lookup` response (source lines 381-390). -/
def fnAddResp (sq : FNState × List ID) (resp : List ID) : FNState × List ID :=
  resp.foldl fnStep sq

/-- One worker request (source lines 351-366): resolve the ID and look it up
through the oracle; failures are skipped, successes are merged. -/
def fnQuery (lookupFn : ID → Option (List ID)) (sq : FNState × List ID) (id : ID) :
    FNState × List ID :=
  match lookupFn id with
  | none => sq
  | some resp => fnAddResp sq resp

/-- One disjoint-lookup group (source lines 344-397), serialized: repeatedly
draw up to `a` IDs from the private queue, resolve each through the lookup
oracle (`none` = unreachable peer or failed RPC, which the source merely
skips), and merge the responses.  `fuel` bounds the loop; Go's termination
relies on the visited set exhausting the network. -/
def fnGroup (lookupFn : ID → Option (List ID)) (a : Nat) :
    Nat → FNState × List ID → FNState
  | 0, sq => sq.1
  | fuel + 1, sq =>
    if sq.2.isEmpty then sq.1
    else
      fnGroup lookupFn a fuel
        ((sq.2.take a).foldl (fnQuery lookupFn) (sq.1, sq.2.drop a))

/-- Round-robin distribution of the seeds over `d` queues
(`lookups[i%d].PushBack(id)`, source line 338). -/
def roundRobin (d : Nat) (seeds : List ID) : List (List ID) :=
  (List.range d).map fun j =>
    (seeds.enum.filter fun p => p.1 % d == j).map Prod.snd

/-- The gather phase of `Protocol.FindNode` (source lines 327-400),
serialized: the visited set is seeded with the self and target checksums plus
the local `FindClosest(target, k)` seeds, which are also the initial results
and are distributed round-robin over `d` private queues; the `d` groups then
run. -/
def fnGather (lookupFn : ID → Option (List ID)) (t : Table) (target : ID)
    (k a d fuel : Nat) : FNState :=
  (roundRobin d (FindClosest t target k)).foldl
    (fun st q => fnGroup lookupFn a fuel (st, q))
    { visited := t.self.checksum :: target.checksum ::
        (FindClosest t target k).map (fun id => id.checksum)
      results := FindClosest t target k }

/-- `Protocol.FindNode` (source lines 324-411), serialized: gather, then sort
everything by ascending XOR distance to the target and truncate to `k`.  (For
`d = 0` with nonempty seeds, or `a = 0` with a nonempty queue, the Go original
never returns; the model then returns the state reached, and every property
proved below holds for all oracles and fuels, hence for every list the Go code
actually returns.) -/
def FindNode (lookupFn : ID → Option (List ID)) (t : Table) (target : ID)
    (k a d fuel : Nat) : List ID :=
  if k < (List.insertionSort (distLe target.checksum)
      (fnGather lookupFn t target k a d fuel).results).length then
    (List.insertionSort (distLe target.checksum)
      (fnGather lookupFn t target k a d fuel).results).take k
  else
    List.insertionSort (distLe target.checksum)
      (fnGather lookupFn t target k a d fuel).results

end Skademlia

namespace NetworkPkg

/-!
### `BootstrapPeers` (src/network/rpc.go)

An earlier codebase in the repository: breadth-first discovery over
`LookupNodeRequest` RPCs.  `peer.ID`, its hex encoding and the RPC plumbing
live outside src/ and are modelled from their use sites.
-/

/-- `peer.ID`: a public key and a transport address. -/
structure PeerID where
  publicKey : List Nat
  address : List Nat
deriving DecidableEq

/-- Lower-case hex digit of a value below 16, as an ASCII code. -/
def hexDigit (n : Nat) : Nat :=
  if n < 10 then 48 + n else 87 + n

/-- Hex encoding of one byte. -/
def byteHex (b : Nat) : List Nat :=
  [hexDigit (b / 16 % 16), hexDigit (b % 16)]

/-- `peer.ID.Hex()` / `Keys.PublicKeyHex()`: lower-case hex of the public
key. -/
def hexOf (bs : List Nat) : List Nat :=
  (bs.map byteHex).flatten

/-- `make([]byte, idSize); copy(publicKey, pk)`: truncate or zero-pad `pk` to
exactly `idSize` bytes (`dht.IdSize`). -/
def fitTo (idSize : Nat) (pk : List Nat) : List Nat :=
  pk.take idSize ++ List.replicate (idSize - pk.length) 0

/-- The loop state of `BootstrapPeers`: the visited hex set, the BFS queue,
the two result slices, and a ghost list of the peers that contributed the
result entries, in order. -/
structure BState where
  visited : List (List Nat)
  queue : List PeerID
  addresses : List (List Nat)
  publicKeys : List (List Nat)
  contributors : List PeerID
deriving DecidableEq

/-- Handle one ID of a lookup response (source lines 64-78): ignore it if its
hex is visited, else mark it visited, queue it, and append its address and its
`idSize`-fitted public key to the results. -/
def processPeer (idSize : Nat) (st : BState) (p : PeerID) : BState :=
  if hexOf p.publicKey ∈ st.visited then st
  else
    { visited := hexOf p.publicKey :: st.visited
      queue := st.queue ++ [p]
      addresses := st.addresses ++ [p.address]
      publicKeys := st.publicKeys ++ [fitTo idSize p.publicKey]
      contributors := st.contributors ++ [p] }

/-- One BFS round (source lines 18-79), serialized in queue order: ask the
lookup oracle about every queued peer (`none` = no client or failed request,
which the source skips) and fold every response's IDs into the state. -/
def processRound (lookup : PeerID → Option (List PeerID)) (idSize : Nat)
    (queue : List PeerID) (st : BState) : BState :=
  queue.foldl
    (fun st popped =>
      match lookup popped with
      | none => st
      | some resp => resp.foldl (processPeer idSize) st)
    st

/-- The outer `for len(queue) > 0` loop, fuel-bounded. -/
def bootstrapLoop (lookup : PeerID → Option (List PeerID)) (idSize : Nat) :
    Nat → BState → BState
  | 0, st => st
  | fuel + 1, st =>
    if st.queue.isEmpty then st
    else
      let q := st.queue
      bootstrapLoop lookup idSize fuel (processRound lookup idSize q { st with queue := [] })

/-- The initial state: the visited set holds the node's own public-key hex and
the target's hex, and the queue holds the target. -/
def bootstrapInit (ownPk : List Nat) (target : PeerID) : BState :=
  { visited := [hexOf ownPk, hexOf target.publicKey]
    queue := [target]
    addresses := []
    publicKeys := []
    contributors := [] }

/-- `BootstrapPeers(network, target, count)` (source lines 11-83): run the BFS
and return the two slices.  (The `count` parameter of the source is unused by
its body.) -/
def BootstrapPeers (lookup : PeerID → Option (List PeerID)) (idSize : Nat)
    (ownPk : List Nat) (target : PeerID) (fuel : Nat) :
    List (List Nat) × List (List Nat) :=
  let st := bootstrapLoop lookup idSize fuel (bootstrapInit ownPk target)
  (st.addresses, st.publicKeys)

/-- The ghost contributor list of the same run. -/
def bootstrapContributors (lookup : PeerID → Option (List PeerID)) (idSize : Nat)
    (ownPk : List Nat) (target : PeerID) (fuel : Nat) : List PeerID :=
  (bootstrapLoop lookup idSize fuel (bootstrapInit ownPk target)).contributors

/-- The invariant of the `BootstrapPeers` loop: the result slices are the
per-contributor projections, contributor hexes are pairwise distinct, already
recorded in the visited set, and never the node's own or the target's hex. -/
def BInv (idSize : Nat) (ownHex targetHex : List Nat) (st : BState) : Prop :=
  st.addresses = st.contributors.map (fun c => c.address) ∧
  st.publicKeys = st.contributors.map (fun c => fitTo idSize c.publicKey) ∧
  (st.contributors.map fun c => hexOf c.publicKey).Nodup ∧
  (∀ c ∈ st.contributors, hexOf c.publicKey ∈ st.visited) ∧
  ownHex ∈ st.visited ∧ targetHex ∈ st.visited ∧
  (st.contributors.all fun c =>
    (hexOf c.publicKey != ownHex) && (hexOf c.publicKey != targetHex)) = true

end NetworkPkg

namespace Skademlia

/-- The invariant of `FindNode`'s shared state: result checksums are pairwise
distinct, every result checksum is recorded in the visited set, and the
visited set contains the node's own checksum, which no result carries. -/
def FNInv (selfCk : Bytes) (st : FNState) : Prop :=
  (st.results.map (fun r => r.checksum)).Nodup ∧
  (∀ r ∈ st.results, r.checksum ∈ st.visited) ∧
  selfCk ∈ st.visited ∧
  (∀ r ∈ st.results, r.checksum ≠ selfCk)

/-- Bucket `i` only holds IDs whose bucket index is `i` (the routing-table
placement invariant of the spec). -/
def bucketWF (t : Table) (i : Nat) : Prop :=
  ∀ x ∈ t.bucket i, getBucketID t.self.checksum x.checksum = i

instance bucketWF.decidable (t : Table) (i : Nat) : Decidable (bucketWF t i) :=
  inferInstanceAs (Decidable (∀ x ∈ t.bucket i, getBucketID t.self.checksum x.checksum = i))

/-! ### Concrete instances used by witnesses and counterexamples -/

/-- A concrete stand-in hash: everything hashes to 32 zero bytes. -/
def H0 : Bytes → Bytes := fun _ => List.replicate 32 0

/-- A checksum with 16 leading zero bits and 32 one-bits inside the first 128
bits. -/
def csA : Bytes := [0, 0, 255, 255, 255, 255] ++ List.replicate 26 0

/-- A wire pong: 32-byte public key of ones, 32-byte zero nonce, empty
address. -/
def buf2 : Bytes := List.replicate 32 1 ++ List.replicate 32 0 ++ [0]

/-- The ID `buf2` decodes to under `H0`. -/
def idB : ID :=
  { publicKey := List.replicate 32 1
    nonce := List.replicate 32 0
    checksum := List.replicate 32 0
    address := [] }

/-- A wire ID list with count byte 17: seventeen all-zero IDs. -/
def c4buf : Bytes := 17 :: (List.replicate 17 (List.replicate 64 0 ++ [0])).flatten

/-- A wire ID list with count byte 1. -/
def c4wbuf : Bytes := 1 :: (List.replicate 64 0 ++ [0])

def self8 : ID := ⟨[], [], [0, 0], []⟩

def id8 : ID := ⟨[], [], [1, 0], []⟩

def last8 : ID := ⟨[], [], [1, 1], []⟩

/-- A table whose bucket 7 is full (capacity 1) with `last8`. -/
def t8 : Table := ⟨self8, (List.replicate 8 ([] : List ID)).set 7 [last8], 1⟩

def st8 : PState := ⟨t8, []⟩

def pingSess8 : Session → Option ID := fun _ => none

def self7 : ID := ⟨[], [], [0], []⟩

/-- An ID that is already in the routing table but not in the registry. -/
def id7 : ID := ⟨[], [], [128], [7]⟩

def t7 : Table := ⟨self7, [[id7]], 16⟩

def st7 : PState := ⟨t7, []⟩

/-- A transport with no open sessions where every dial fails. -/
def env7 : DialEnv := ⟨fun _ => none, fun _ => none⟩

def self9 : ID := ⟨[], [], [0], []⟩

def idA9 : ID := ⟨[], [], [1], []⟩

def idB9 : ID := ⟨[], [], [2], []⟩

def idC9 : ID := ⟨[], [], [4], []⟩

def target9 : ID := ⟨[], [], [3], []⟩

def t9 : Table := ⟨self9, [[idA9], [idB9]], 16⟩

/-- A lookup oracle under which `idA9` reports a fresh ID and the node's own
ID. -/
def lookup9 : ID → Option (List ID) := fun id =>
  if id.checksum = [1] then some [idC9, self9] else none

end Skademlia

/-! ## Theorems -/

namespace Skademlia

theorem bytesCompare_swap : ∀ a b : Bytes, bytesCompare b a = (bytesCompare a b).swap
  | [], [] => rfl
  | [], _ :: _ => rfl
  | _ :: _, [] => rfl
  | a :: as, b :: bs => by
    simp only [bytesCompare]
    rcases Nat.lt_trichotomy a b with h | h | h
    · rw [if_neg (Nat.lt_asymm h), if_pos h, if_pos h]
      rfl
    · subst h
      rw [if_neg (Nat.lt_irrefl a), if_neg (Nat.lt_irrefl a), if_neg (Nat.lt_irrefl a),
        if_neg (Nat.lt_irrefl a)]
      exact bytesCompare_swap as bs
    · rw [if_pos h, if_neg (Nat.lt_asymm h), if_pos h]
      rfl

theorem bytesCompare_ne_gt_trans :
    ∀ {a b c : Bytes}, bytesCompare a b ≠ .gt → bytesCompare b c ≠ .gt →
      bytesCompare a c ≠ .gt
  | [], _, c, _, _ => by cases c <;> simp [bytesCompare]
  | _ :: _, [], _, h1, _ => by simp [bytesCompare] at h1
  | _ :: _, _ :: _, [], _, h2 => by simp [bytesCompare] at h2
  | x :: xs, y :: ys, z :: zs, h1, h2 => by
    simp only [bytesCompare] at h1 h2 ⊢
    have hyx : ¬ y < x := by
      intro h
      rw [if_neg (Nat.lt_asymm h), if_pos h] at h1
      exact h1 rfl
    have hzy : ¬ z < y := by
      intro h
      rw [if_neg (Nat.lt_asymm h), if_pos h] at h2
      exact h2 rfl
    have hzx : ¬ z < x := fun h => hzy (Nat.lt_of_lt_of_le h (Nat.le_of_not_lt hyx))
    by_cases hxz : x < z
    · rw [if_pos hxz]
      intro hc
      exact Ordering.noConfusion hc
    · have hxz' : x = z := Nat.le_antisymm (Nat.le_of_not_lt hzx) (Nat.le_of_not_lt hxz)
      have hxy' : x = y := Nat.le_antisymm (Nat.le_of_not_lt hyx) (by omega)
      rw [if_neg hxz, if_neg hzx]
      rw [hxy', if_neg (Nat.lt_irrefl y), if_neg (Nat.lt_irrefl y)] at h1
      have hyz' : y = z := by omega
      rw [hyz', if_neg (Nat.lt_irrefl z), if_neg (Nat.lt_irrefl z)] at h2
      exact bytesCompare_ne_gt_trans h1 h2

theorem distLe_total (t : Bytes) : IsTotal ID (distLe t) :=
  ⟨fun x y => by
    unfold distLe
    by_cases h : bytesCompare (xorBytes x.checksum t) (xorBytes y.checksum t) = .gt
    · right
      rw [bytesCompare_swap, h]
      intro hc
      exact Ordering.noConfusion hc
    · exact Or.inl h⟩

theorem distLe_trans (t : Bytes) : IsTrans ID (distLe t) :=
  ⟨fun _ _ _ h1 h2 => bytesCompare_ne_gt_trans h1 h2⟩

/-- The final sort-and-truncate of `FindNode` yields at most `k` results,
sorted. -/
theorem sortTrunc_spec (tk : Bytes) (k : Nat) (res : List ID) :
    (if k < (List.insertionSort (distLe tk) res).length
        then (List.insertionSort (distLe tk) res).take k
        else List.insertionSort (distLe tk) res).length ≤ k ∧
      List.Sorted (distLe tk)
        (if k < (List.insertionSort (distLe tk) res).length
          then (List.insertionSort (distLe tk) res).take k
          else List.insertionSort (distLe tk) res) := by
  haveI := distLe_total tk
  haveI := distLe_trans tk
  constructor
  · split
    · rw [List.length_take]
      omega
    · omega
  · split
    · exact List.Pairwise.sublist (List.take_sublist k _) (List.sorted_insertionSort _ _)
    · exact List.sorted_insertionSort _ _

/-- Claim C1: every list returned by `FindNode(node, target, k, a, d)` has
length at most `k` and is sorted in ascending XOR distance between each
result's checksum and `target.checksum` (distances compared as big-endian
unsigned integers, i.e. lexicographically on the byte strings). -/
theorem findNode_sorted_and_truncated (lookupFn : ID → Option (List ID)) (t : Table)
    (target : ID) (k a d fuel : Nat) :
    (FindNode lookupFn t target k a d fuel).length ≤ k ∧
      List.Sorted (distLe target.checksum) (FindNode lookupFn t target k a d fuel) :=
  sortTrunc_spec target.checksum k _

end Skademlia

namespace Skademlia

/-- Claim C2: `Ping` returns an ID exactly when the send succeeded, a pong
frame arrived (no cancellation, no timeout), it unmarshalled, the crypto
puzzle verified, and the prefix-diff gate `prefixDiff(self, id) ≥ pdMin`
passed; in every other case it returns an error and no ID. -/
theorem ping_ok_iff (H : Bytes → Bytes) (selfCk : Bytes) (c1 c2 pdLen pdMin : Nat)
    (sendOk : Bool) (ev : RecvEvent) (id : ID) :
    Ping H selfCk c1 c2 pdLen pdMin sendOk ev = .ok id ↔
      sendOk = true ∧ ∃ buf, ev = RecvEvent.data buf ∧ unmarshalID H buf = .ok id ∧
        verifyPuzzle H id.checksum id.nonce c1 c2 = true ∧
        pdMin ≤ prefixDiff selfCk id.checksum pdLen := by
  constructor
  · intro h
    unfold Ping at h
    cases sendOk with
    | false => simp at h
    | true =>
      cases ev with
      | cancelled => simp at h
      | timeout => simp at h
      | data buf =>
        rcases hu : unmarshalID H buf with e | id1 <;> simp only [hu] at h
        · simp at h
        · by_cases hv : verifyPuzzle H id1.checksum id1.nonce c1 c2
          · by_cases hp : prefixDiff selfCk id1.checksum pdLen < pdMin
            · simp [hv, hp] at h
            · simp only [hv, Bool.not_true, Bool.false_eq_true, if_false, if_neg hp,
                Bool.true_eq_false] at h
              injection h with h1
              subst h1
              exact ⟨rfl, buf, rfl, hu, hv, Nat.le_of_not_lt hp⟩
          · simp [hv] at h
  · rintro ⟨hs, buf, rfl, hu, hv, hp⟩
    subst hs
    unfold Ping
    simp [hu, hv, Nat.not_lt.mpr hp]

/-- Witness for C2: a concrete pong that `Ping` accepts, with the puzzle and
prefix-diff conditions holding at it. -/
theorem ping_ok_iff_witness :
    Ping H0 csA 16 16 128 32 true (RecvEvent.data buf2) = .ok idB :=
  (ping_ok_iff H0 csA 16 16 128 32 true (RecvEvent.data buf2) idB).mpr
    ⟨rfl, buf2, rfl, by rfl, by decide, by decide⟩

set_option maxRecDepth 20000 in
/-- Counterexample for C4: a response whose count byte is 17 decodes to a
17-element ID list and `Lookup` returns it as a success, exceeding the bucket
size `K = 16`. -/
theorem lookup_returns_more_than_K :
    Lookup H0 true (RecvEvent.data c4buf) = .ok (List.replicate 17 goZeroID) ∧
      16 < (List.replicate 17 goZeroID).length := by
  exact ⟨rfl, by decide⟩

theorem unmarshalIDsAux_length (H : Bytes → Bytes) :
    ∀ (n : Nat) (buf : Bytes) (ids : List ID),
      unmarshalIDsAux H n buf = .ok ids → ids.length = n := by
  intro n
  induction n with
  | zero =>
    intro buf ids h
    rw [unmarshalIDsAux] at h
    injection h with h1
    subst h1
    rfl
  | succ n ih =>
    intro buf ids h
    rw [unmarshalIDsAux] at h
    rcases hg : unmarshalIDGo H buf with ⟨id1, rest, err⟩
    cases err with
    | some e => simp [hg] at h
    | none =>
      rw [hg] at h
      rcases haux : unmarshalIDsAux H n rest with e | ids1 <;> simp only [haux] at h
      · simp at h
      · simp only [Except.ok.injEq] at h
        subst h
        simp [ih rest ids1 haux]

/-- C4 as amended: a list returned by `Lookup` without error has at most 255
elements (its length is exactly the one-byte count that prefixed it); no
bucket-size bound is enforced anywhere on the path. -/
theorem lookup_length_le_255 (H : Bytes → Bytes) (sendOk : Bool) (buf : Bytes)
    (ids : List ID) (hbytes : ∀ x ∈ buf, x < 256)
    (hok : Lookup H sendOk (RecvEvent.data buf) = .ok ids) : ids.length ≤ 255 := by
  cases sendOk with
  | false => simp [Lookup] at hok
  | true =>
    cases buf with
    | nil => simp [Lookup, unmarshalIDs] at hok
    | cons n rest =>
      have hred : Lookup H true (RecvEvent.data (n :: rest)) =
          match unmarshalIDsAux H n rest with
          | .error e => .error (.decode e)
          | .ok l => .ok l := rfl
      rw [hred] at hok
      rcases haux : unmarshalIDsAux H n rest with e | ids1 <;> rw [haux] at hok
      · simp at hok
      · simp only [Except.ok.injEq] at hok
        subst hok
        have hlen := unmarshalIDsAux_length H n rest ids1 haux
        have hn : n < 256 := hbytes n (List.mem_cons_self n rest)
        omega

/-- Witness for the amended C4: a concrete one-ID response, decoded and
returned with length within the 255 bound. -/
theorem lookup_length_le_255_witness :
    (∀ x ∈ c4wbuf, x < 256) ∧ [goZeroID].length ≤ 255 :=
  ⟨by decide, lookup_length_le_255 H0 true c4wbuf [goZeroID] (by decide) (by rfl)⟩

/-- Claim C5 (the code bug): on a 0x04 frame that fails to unmarshal, the
session is disconnected with a descriptive error, but — the error branch does
not stop the handler — a lookup response computed from the zero-value target
the failed decode left behind is still sent. -/
theorem lookup_frame_decode_error_still_sends (H : Bytes → Bytes) (t : Table) :
    handleLookupFrame H t true [] =
      [SAct.disconnect (DiscReason.invalidLookupRequest DecodeErr.shortPublicKey),
        SAct.send 4 (FindClosest t goZeroID t.bucketSize)] := rfl

/-- Claim C6: the error interceptor removes the peer's registry entry on every
intercepted transport error, and evicts the peer's ID from the routing table
iff the error is a transport-level network timeout or its cause is the
`noise.ErrTimeout` peer-timeout error. -/
theorem interceptErrors_spec (st : PState) (id : ID) (e : TransportError) :
    (interceptErrors st id e).peers = regErase st.peers id.checksum ∧
      (interceptErrors st id e).table =
        (if e.netTimeout = true ∨ e.cause = Cause.errTimeout then evict st.table id
          else st.table) := by
  unfold interceptErrors
  by_cases h1 : e.netTimeout = true
  · simp [h1]
  · by_cases h2 : e.cause = Cause.errTimeout
    · simp [h1, h2]
    · simp [h1, h2]

end Skademlia

namespace Skademlia

theorem getD_set_self {α : Type} : ∀ (l : List α) (i : Nat) (b d : α), i < l.length →
    (l.set i b).getD i d = b
  | [], i, _, _, h => absurd h (Nat.not_lt_zero i)
  | _ :: _, 0, _, _, _ => rfl
  | _ :: l, i + 1, b, d, h => getD_set_self l i b d (Nat.lt_of_succ_lt_succ h)

theorem getD_set_ne {α : Type} : ∀ (l : List α) (i j : Nat) (b d : α), j ≠ i →
    (l.set i b).getD j d = l.getD j d
  | [], _, _, _, _, _ => rfl
  | _ :: _, 0, 0, _, _, h => absurd rfl h
  | _ :: _, 0, _ + 1, _, _, _ => rfl
  | _ :: _, _ + 1, 0, _, _, _ => rfl
  | _ :: l, i + 1, j + 1, b, d, h =>
    getD_set_ne l i j b d (fun hc => h (by rw [hc]))

theorem bucket_setBucket_self (t : Table) (i : Nat) (b : List ID)
    (h : i < t.buckets.length) : (t.setBucket i b).bucket i = b :=
  getD_set_self t.buckets i b [] h

theorem bucket_setBucket_ne (t : Table) (i j : Nat) (b : List ID) (h : j ≠ i) :
    (t.setBucket i b).bucket j = t.bucket j :=
  getD_set_ne t.buckets i j b [] h

theorem bucket_nonempty_lt_length (t : Table) (i : Nat) (h : t.bucket i ≠ []) :
    i < t.buckets.length := by
  by_contra hc
  exact h (List.getD_eq_default t.buckets [] (Nat.le_of_not_lt hc))

theorem deleteByCk_subset (ck : Bytes) (l : List ID) (x : ID)
    (h : x ∈ deleteByCk ck l) : x ∈ l := by
  induction l with
  | nil => exact absurd h (List.not_mem_nil x)
  | cons a l ih =>
    rw [deleteByCk] at h
    by_cases ha : a.checksum = ck
    · rw [if_pos ha] at h
      exact List.mem_cons_of_mem a h
    · rw [if_neg ha] at h
      rcases List.mem_cons.mp h with h | h
      · exact h ▸ List.mem_cons_self a l
      · exact List.mem_cons_of_mem a (ih h)

theorem deleteByCk_length_lt (ck : Bytes) (l : List ID)
    (h : ∃ x ∈ l, x.checksum = ck) : (deleteByCk ck l).length < l.length := by
  induction l with
  | nil =>
    obtain ⟨x, hx, _⟩ := h
    exact absurd hx (List.not_mem_nil x)
  | cons a l ih =>
    rw [deleteByCk]
    by_cases ha : a.checksum = ck
    · rw [if_pos ha]
      exact Nat.lt_succ_self l.length
    · rw [if_neg ha]
      obtain ⟨x, hx, hck⟩ := h
      have hxl : x ∈ l := by
        rcases List.mem_cons.mp hx with h1 | h1
        · exact absurd (h1 ▸ hck) ha
        · exact h1
      exact Nat.succ_lt_succ (ih ⟨x, hxl, hck⟩)

theorem tableUpdate_full {t : Table} {id : ID}
    (h : (tableUpdate t id).2 = .bucketFull) :
    tableUpdate t id = (t, .bucketFull) ∧
      t.bucketSize ≤ (t.bucket (getBucketID t.self.checksum id.checksum)).length := by
  unfold tableUpdate at h ⊢
  by_cases h1 : id.checksum = t.self.checksum
  · rw [if_pos h1] at h
    simp at h
  · rw [if_neg h1] at h ⊢
    rcases hf : (t.bucket (getBucketID t.self.checksum id.checksum)).find?
        (fun x => x.checksum == id.checksum) with _ | x <;> simp only [hf] at h ⊢
    · by_cases h2 : (t.bucket (getBucketID t.self.checksum id.checksum)).length < t.bucketSize
      · rw [if_pos h2] at h
        simp at h
      · rw [if_neg h2] at h ⊢
        exact ⟨rfl, Nat.le_of_not_lt h2⟩
    · simp at h

theorem updateStep_full (pingSess : Session → Option ID) {st : PState} {id lastid : ID}
    (hfull : (tableUpdate st.table id).2 = .bucketFull)
    (hlast : (st.table.bucket (getBucketID st.table.self.checksum id.checksum)).getLast?
      = some lastid) :
    updateStep pingSess st id =
      match regFind st.peers lastid.checksum with
      | none =>
        .retry .deleteStale
          { st with
            table := tableDelete st.table (getBucketID st.table.self.checksum id.checksum) lastid }
      | some s =>
        match pingSess s with
        | none => .retry .disconnectPingFailed (disconnectTimeout st lastid.checksum)
        | some pid =>
          if pid.checksum ≠ lastid.checksum ∨ pid.nonce ≠ lastid.nonce ∨
              pid.address ≠ lastid.address then
            .retry .disconnectBadID (disconnectTimeout st lastid.checksum)
          else .finished (some .cannotEvict) st := by
  unfold updateStep
  simp only [(tableUpdate_full hfull).1, hlast]

end Skademlia

namespace Skademlia

/-- Claim C3: when `table.Update(id)` reports a full bucket, `Protocol.Update`
inspects the bucket's back entry `lastid`: with no registered session it is
deleted from the bucket and the update retried; a failed ping, or a pong
differing from `lastid` in checksum, nonce or address, disconnects that
session with a peer-timeout error (whose interceptor evicts it) and retries;
only a successful, fully matching ping makes `Update` return the cannot-evict
rejection with the state unchanged — the new `id` is not added. -/
theorem update_bucketFull_policy (pingSess : Session → Option ID) (st : PState)
    (id lastid : ID) (fuel : Nat)
    (hfull : (tableUpdate st.table id).2 = .bucketFull)
    (hlast : (st.table.bucket (getBucketID st.table.self.checksum id.checksum)).getLast?
      = some lastid) :
    (regFind st.peers lastid.checksum = none →
      protocolUpdate pingSess (fuel + 1) st id =
        protocolUpdate pingSess fuel
          { st with
            table := tableDelete st.table (getBucketID st.table.self.checksum id.checksum)
              lastid } id) ∧
    (∀ s, regFind st.peers lastid.checksum = some s →
      (pingSess s = none →
        protocolUpdate pingSess (fuel + 1) st id =
          protocolUpdate pingSess fuel (disconnectTimeout st lastid.checksum) id) ∧
      (∀ pid, pingSess s = some pid →
        ((pid.checksum ≠ lastid.checksum ∨ pid.nonce ≠ lastid.nonce ∨
            pid.address ≠ lastid.address) →
          protocolUpdate pingSess (fuel + 1) st id =
            protocolUpdate pingSess fuel (disconnectTimeout st lastid.checksum) id) ∧
        (pid.checksum = lastid.checksum → pid.nonce = lastid.nonce →
          pid.address = lastid.address →
          protocolUpdate pingSess (fuel + 1) st id = .done (some .cannotEvict) st))) := by
  have hstep := updateStep_full pingSess hfull hlast
  refine ⟨fun hreg => ?_, fun s hreg =>
    ⟨fun hping => ?_, fun pid hping => ⟨fun hmis => ?_, fun h1 h2 h3 => ?_⟩⟩⟩
  · rw [protocolUpdate, hstep, hreg]
  · rw [protocolUpdate, hstep]
    simp only [hreg, hping]
  · rw [protocolUpdate, hstep]
    simp only [hreg, hping, if_pos hmis]
  · have hno : ¬(pid.checksum ≠ lastid.checksum ∨ pid.nonce ≠ lastid.nonce ∨
        pid.address ≠ lastid.address) := by
      simp [h1, h2, h3]
    rw [protocolUpdate, hstep]
    simp only [hreg, hping, if_neg hno]

/-- Witness for C3: on a concrete full bucket whose back entry has no
registered session, `Update` deletes it and retries. -/
theorem update_bucketFull_policy_witness :
    (tableUpdate st8.table id8).2 = .bucketFull ∧
      protocolUpdate pingSess8 2 st8 id8 =
        protocolUpdate pingSess8 1
          { st8 with
            table := tableDelete st8.table (getBucketID st8.table.self.checksum id8.checksum)
              last8 } id8 :=
  ⟨by decide,
    (update_bucketFull_policy pingSess8 st8 id8 last8 1 (by decide) (by decide)).1 (by decide)⟩

end Skademlia

namespace Skademlia

/-- Claim C8: `Protocol.Update` terminates — under the table placement
invariant for the target bucket and a positive bucket capacity, any fuel
exceeding the bucket's occupancy suffices for the retry loop to return, with
either a successful insertion or the cannot-evict rejection; in the ping
failure cases the eviction performed by the disconnected peer's error
interceptor (run here serially at the `Disconnect` call) shrinks the bucket,
so the loop makes progress. -/
theorem update_terminates (pingSess : Session → Option ID) :
    ∀ (fuel : Nat) (st : PState) (id : ID),
      1 ≤ st.table.bucketSize →
      bucketWF st.table (getBucketID st.table.self.checksum id.checksum) →
      (st.table.bucket (getBucketID st.table.self.checksum id.checksum)).length < fuel →
      ∃ r st1, protocolUpdate pingSess fuel st id = .done r st1 := by
  intro fuel
  induction fuel with
  | zero =>
    intro st id _ _ hf
    omega
  | succ fuel ih =>
    intro st id hK hwf hf
    rcases hup : tableUpdate st.table id with ⟨t1, r1⟩
    cases r1 with
    | ok =>
      refine ⟨none, { st with table := t1 }, ?_⟩
      rw [protocolUpdate]
      unfold updateStep
      rw [hup]
    | bucketFull =>
      have hfull : (tableUpdate st.table id).2 = .bucketFull := by rw [hup]
      have hlen := (tableUpdate_full hfull).2
      have hne : st.table.bucket (getBucketID st.table.self.checksum id.checksum) ≠ [] := by
        intro hnil
        rw [hnil] at hlen
        simp at hlen
        omega
      rcases hl : (st.table.bucket (getBucketID st.table.self.checksum id.checksum)).getLast?
        with _ | lastid
      · exact absurd (List.getLast?_eq_none_iff.mp hl) hne
      · have hstep := updateStep_full pingSess hfull hl
        have hmem : lastid ∈ st.table.bucket (getBucketID st.table.self.checksum id.checksum) :=
          List.mem_of_mem_getLast? hl
        have hidx : getBucketID st.table.self.checksum id.checksum < st.table.buckets.length :=
          bucket_nonempty_lt_length _ _ hne
        have hj : getBucketID st.table.self.checksum lastid.checksum =
            getBucketID st.table.self.checksum id.checksum := hwf lastid hmem
        have key : ∀ ps1 : Registry,
            ∃ r st1,
              protocolUpdate pingSess fuel
                ⟨st.table.setBucket (getBucketID st.table.self.checksum id.checksum)
                  (deleteByCk lastid.checksum
                    (st.table.bucket (getBucketID st.table.self.checksum id.checksum))), ps1⟩
                id = .done r st1 := by
          intro ps1
          apply ih
          · exact hK
          · intro x hx
            show getBucketID st.table.self.checksum x.checksum = _
            have hbx := bucket_setBucket_self st.table
              (getBucketID st.table.self.checksum id.checksum)
              (deleteByCk lastid.checksum
                (st.table.bucket (getBucketID st.table.self.checksum id.checksum))) hidx
            have hx2 : x ∈ (st.table.setBucket (getBucketID st.table.self.checksum id.checksum)
                (deleteByCk lastid.checksum
                  (st.table.bucket (getBucketID st.table.self.checksum id.checksum)))).bucket
                (getBucketID st.table.self.checksum id.checksum) := hx
            rw [hbx] at hx2
            exact hwf x (deleteByCk_subset lastid.checksum _ x hx2)
          · show (((st.table.setBucket (getBucketID st.table.self.checksum id.checksum)
                (deleteByCk lastid.checksum
                  (st.table.bucket (getBucketID st.table.self.checksum id.checksum)))).bucket
                (getBucketID st.table.self.checksum id.checksum)).length) < fuel
            rw [bucket_setBucket_self st.table _ _ hidx]
            have hdec := deleteByCk_length_lt lastid.checksum
              (st.table.bucket (getBucketID st.table.self.checksum id.checksum))
              ⟨lastid, hmem, rfl⟩
            omega
        rcases hreg : regFind st.peers lastid.checksum with _ | s
        · obtain ⟨r, st1, hdone⟩ := key st.peers
          refine ⟨r, st1, ?_⟩
          rw [protocolUpdate, hstep, hreg]
          exact hdone
        · rcases hping : pingSess s with _ | pid
          · obtain ⟨r, st1, hdone⟩ := key (regErase st.peers lastid.checksum)
            refine ⟨r, st1, ?_⟩
            rw [protocolUpdate, hstep]
            simp only [hreg, hping]
            show protocolUpdate pingSess fuel
              ⟨evictCk st.table lastid.checksum, regErase st.peers lastid.checksum⟩ id = _
            unfold evictCk
            rw [hj]
            exact hdone
          · by_cases hm : pid.checksum ≠ lastid.checksum ∨ pid.nonce ≠ lastid.nonce ∨
                pid.address ≠ lastid.address
            · obtain ⟨r, st1, hdone⟩ := key (regErase st.peers lastid.checksum)
              refine ⟨r, st1, ?_⟩
              rw [protocolUpdate, hstep]
              simp only [hreg, hping, if_pos hm]
              show protocolUpdate pingSess fuel
                ⟨evictCk st.table lastid.checksum, regErase st.peers lastid.checksum⟩ id = _
              unfold evictCk
              rw [hj]
              exact hdone
            · refine ⟨some .cannotEvict, st, ?_⟩
              rw [protocolUpdate, hstep]
              simp only [hreg, hping, if_neg hm]

/-- Witness for C8: on a concrete full bucket with a stale back entry,
`Update` returns within fuel 2. -/
theorem update_terminates_witness :
    ∃ r st1, protocolUpdate pingSess8 2 st8 id8 = .done r st1 :=
  update_terminates pingSess8 2 st8 id8 (by decide) (by decide) (by decide)

end Skademlia

namespace Skademlia

theorem peerByID_none {env : DialEnv} {st : PState} {id : ID} {st1 : PState}
    (h : peerByID env st id = (none, st1)) :
    st1 = { st with table := evict st.table id } := by
  unfold peerByID at h
  rcases hr : regFind st.peers id.checksum with _ | s <;> simp only [hr] at h
  · rcases hpa : env.peerByAddr id.address with _ | s <;> simp only [hpa] at h
    · rcases hd : env.dial id.address with _ | s <;> simp only [hd] at h
      · simp only [Prod.mk.injEq] at h
        exact h.2.symm
      · simp at h
    · simp at h
  · simp at h

theorem peerByID_some {env : DialEnv} {st : PState} {id : ID} {r : Session} {st1 : PState}
    (h : peerByID env st id = (some r, st1)) : st1 = st := by
  unfold peerByID at h
  rcases hr : regFind st.peers id.checksum with _ | s <;> simp only [hr] at h
  · rcases hpa : env.peerByAddr id.address with _ | s <;> simp only [hpa] at h
    · rcases hd : env.dial id.address with _ | s <;> simp only [hd] at h
      · simp at h
      · simp only [Prod.mk.injEq] at h
        exact h.2.symm
    · simp only [Prod.mk.injEq] at h
      exact h.2.symm
  · simp only [Prod.mk.injEq] at h
    exact h.2.symm

theorem regFind_regInsert (ps : Registry) (ck : Bytes) (s : Session) :
    regFind (regInsert ps ck s) ck = some s := by
  unfold regFind regInsert
  rw [List.find?_cons_of_pos _ (by simp)]
  rfl

/-- C7 as amended: the reachability dial through `PeerByID` happens exactly
when the checksum is unregistered and the session's transport address differs
from `id.address`; if it yields no session the handshake returns the timeout
error with the registry untouched, but the routing table has already been
mutated by the failed dial (`PeerByID` evicts `id`); if it yields a session,
that reachability session is disconnected at once and the original session is
the one registered. -/
theorem addressReconciliation_spec (env : DialEnv) (st : PState) (sessionAddr : Bytes)
    (sess : Session) (id : ID) :
    (HAct.reachDial ∈ (addressReconciliation env st sessionAddr sess id).acts ↔
      (regFind st.peers id.checksum = none ∧ sessionAddr ≠ id.address)) ∧
    ((regFind st.peers id.checksum = none ∧ sessionAddr ≠ id.address ∧
        (peerByID env st id).1 = none) →
      (addressReconciliation env st sessionAddr sess id).result = some RPCError.timeout ∧
      (addressReconciliation env st sessionAddr sess id).state.peers = st.peers ∧
      (addressReconciliation env st sessionAddr sess id).state.table = evict st.table id) ∧
    (∀ r, regFind st.peers id.checksum = none → sessionAddr ≠ id.address →
      (peerByID env st id).1 = some r →
      (addressReconciliation env st sessionAddr sess id).result = none ∧
      HAct.disconnectReach r ∈ (addressReconciliation env st sessionAddr sess id).acts ∧
      (addressReconciliation env st sessionAddr sess id).state.table = st.table ∧
      regFind (addressReconciliation env st sessionAddr sess id).state.peers id.checksum
        = some sess) ∧
    (¬(regFind st.peers id.checksum = none ∧ sessionAddr ≠ id.address) →
      (addressReconciliation env st sessionAddr sess id).result = none ∧
      (addressReconciliation env st sessionAddr sess id).state.table = st.table ∧
      regFind (addressReconciliation env st sessionAddr sess id).state.peers id.checksum
        = some sess) := by
  refine ⟨?_, ?_, ?_, ?_⟩
  · by_cases h1 : regFind st.peers id.checksum = none
    · by_cases h2 : sessionAddr = id.address
      · simp [addressReconciliation, h1, h2]
      · rcases hp : peerByID env st id with ⟨os, st1⟩
        cases os with
        | none => simp [addressReconciliation, h1, h2, hp]
        | some r => simp [addressReconciliation, h1, h2, hp]
    · have h1b : (regFind st.peers id.checksum).isSome = true := by
        rcases hr : regFind st.peers id.checksum with _ | s
        · exact absurd hr h1
        · rfl
      simp [addressReconciliation, h1b, h1]
  · rintro ⟨h1, h2, hpn⟩
    rcases hp : peerByID env st id with ⟨os, st1⟩
    rw [hp] at hpn
    simp only at hpn
    subst hpn
    have hst1 := peerByID_none hp
    subst hst1
    simp [addressReconciliation, h1, h2, hp, evict]
  · rintro r h1 h2 hpr
    rcases hp : peerByID env st id with ⟨os, st1⟩
    rw [hp] at hpr
    simp only at hpr
    subst hpr
    have hst1 := peerByID_some hp
    subst hst1
    simp [addressReconciliation, h1, h2, hp, regFind_regInsert]
  · intro hc
    by_cases h1 : regFind st.peers id.checksum = none
    · have h2 : sessionAddr = id.address := by
        by_contra h2
        exact hc ⟨h1, h2⟩
      simp [addressReconciliation, h1, h2, regFind_regInsert]
    · have h1b : (regFind st.peers id.checksum).isSome = true := by
        rcases hr : regFind st.peers id.checksum with _ | s
        · exact absurd hr h1
        · rfl
      simp [addressReconciliation, h1b, regFind_regInsert]

set_option maxRecDepth 4000 in
/-- Counterexample for C7: `id7` is in the routing table but not in the
registry, and its advertised address differs from the session's; the
reachability dial fails, the handshake returns the timeout error — and the
routing table HAS been mutated (the failed dial evicted `id7`), so the
failure does not precede every table mutation. -/
theorem addressReconciliation_mutates_table :
    (addressReconciliation env7 st7 [9] 5 id7).result = some RPCError.timeout ∧
      (addressReconciliation env7 st7 [9] 5 id7).state.table ≠ st7.table := by
  constructor
  · rfl
  · decide

set_option maxRecDepth 4000 in
/-- Witness for the amended C7: the dial-failure branch at the same concrete
input, reached through the amended theorem. -/
theorem addressReconciliation_spec_witness :
    (addressReconciliation env7 st7 [9] 5 id7).result = some RPCError.timeout ∧
      (addressReconciliation env7 st7 [9] 5 id7).state.peers = st7.peers ∧
      (addressReconciliation env7 st7 [9] 5 id7).state.table = evict st7.table id7 :=
  (addressReconciliation_spec env7 st7 [9] 5 id7).2.1 ⟨by rfl, by decide, by rfl⟩

end Skademlia

namespace Skademlia

theorem fnStep_inv (selfCk : Bytes) (sq : FNState × List ID) (rid : ID)
    (h : FNInv selfCk sq.1) : FNInv selfCk (fnStep sq rid).1 := by
  unfold fnStep
  by_cases hv : rid.checksum ∈ sq.1.visited
  · rw [if_pos hv]
    exact h
  · rw [if_neg hv]
    obtain ⟨hnd, hsub, hself, hne⟩ := h
    refine ⟨?_, ?_, ?_, ?_⟩
    · rw [List.map_append, List.nodup_append]
      refine ⟨hnd, List.nodup_singleton _, ?_⟩
      intro x hx hx2
      simp only [List.map_cons, List.map_nil, List.mem_singleton] at hx2
      subst hx2
      rcases List.mem_map.mp hx with ⟨r, hr, hck⟩
      exact hv (hck ▸ hsub r hr)
    · intro r hr
      rcases List.mem_append.mp hr with hr | hr
      · exact List.mem_cons_of_mem _ (hsub r hr)
      · rw [List.mem_singleton] at hr
        subst hr
        exact List.mem_cons_self _ _
    · exact List.mem_cons_of_mem _ hself
    · intro r hr
      rcases List.mem_append.mp hr with hr | hr
      · exact hne r hr
      · rw [List.mem_singleton] at hr
        subst hr
        intro hceq
        exact hv (hceq ▸ hself)

theorem fnAddResp_inv (selfCk : Bytes) :
    ∀ (resp : List ID) (sq : FNState × List ID), FNInv selfCk sq.1 →
      FNInv selfCk (fnAddResp sq resp).1 := by
  intro resp
  induction resp with
  | nil => exact fun sq h => h
  | cons rid rest ih =>
    intro sq h
    show FNInv selfCk ((rid :: rest).foldl fnStep sq).1
    rw [List.foldl_cons]
    exact ih (fnStep sq rid) (fnStep_inv selfCk sq rid h)

theorem fnQuery_inv (selfCk : Bytes) (lookupFn : ID → Option (List ID))
    (sq : FNState × List ID) (id : ID) (h : FNInv selfCk sq.1) :
    FNInv selfCk (fnQuery lookupFn sq id).1 := by
  rcases hl : lookupFn id with _ | resp <;> simp only [fnQuery, hl]
  · exact h
  · exact fnAddResp_inv selfCk resp sq h

theorem foldl_fnQuery_inv (selfCk : Bytes) (lookupFn : ID → Option (List ID)) :
    ∀ (batch : List ID) (sq : FNState × List ID), FNInv selfCk sq.1 →
      FNInv selfCk (batch.foldl (fnQuery lookupFn) sq).1 := by
  intro batch
  induction batch with
  | nil => exact fun sq h => h
  | cons id rest ih =>
    intro sq h
    rw [List.foldl_cons]
    exact ih _ (fnQuery_inv selfCk lookupFn sq id h)

theorem fnGroup_inv (selfCk : Bytes) (lookupFn : ID → Option (List ID)) (a : Nat) :
    ∀ (fuel : Nat) (sq : FNState × List ID), FNInv selfCk sq.1 →
      FNInv selfCk (fnGroup lookupFn a fuel sq) := by
  intro fuel
  induction fuel with
  | zero => exact fun sq h => h
  | succ fuel ih =>
    intro sq h
    rw [fnGroup]
    by_cases he : sq.2.isEmpty
    · rw [if_pos he]
      exact h
    · rw [if_neg he]
      exact ih _ (foldl_fnQuery_inv selfCk lookupFn _ _ h)

theorem fnGroups_inv (selfCk : Bytes) (lookupFn : ID → Option (List ID)) (a fuel : Nat) :
    ∀ (queues : List (List ID)) (st : FNState), FNInv selfCk st →
      FNInv selfCk (queues.foldl (fun st q => fnGroup lookupFn a fuel (st, q)) st) := by
  intro queues
  induction queues with
  | nil => exact fun st h => h
  | cons q rest ih =>
    intro st h
    rw [List.foldl_cons]
    exact ih _ (fnGroup_inv selfCk lookupFn a fuel (st, q) h)

theorem findClosest_nodup (t : Table) (target : ID) (k : Nat)
    (hnd : (t.buckets.flatten.map (fun id => id.checksum)).Nodup) :
    ((FindClosest t target k).map (fun id => id.checksum)).Nodup := by
  unfold FindClosest
  apply List.Sublist.nodup (List.Sublist.map _ (List.take_sublist k _))
  have hperm := List.perm_insertionSort (distLe target.checksum)
    (t.buckets.flatten.filter fun id => !(id.checksum == t.self.checksum))
  apply List.Perm.nodup ((hperm.map (fun id => id.checksum)).symm)
  exact List.Sublist.nodup (List.Sublist.map _ (List.filter_sublist _)) hnd

theorem findClosest_no_self (t : Table) (target : ID) (k : Nat) (r : ID)
    (hr : r ∈ FindClosest t target k) : r.checksum ≠ t.self.checksum := by
  unfold FindClosest at hr
  have hr3 := (List.take_sublist k _).subset hr
  have hr4 := (List.perm_insertionSort (distLe target.checksum) _).subset hr3
  have hp := List.of_mem_filter hr4
  simpa using hp

theorem sortTrunc_nodup_no_self (tk selfCk : Bytes) (k : Nat) (res : List ID)
    (hnd : (res.map (fun r => r.checksum)).Nodup)
    (hns : ∀ r ∈ res, r.checksum ≠ selfCk) :
    ((if k < (List.insertionSort (distLe tk) res).length
        then (List.insertionSort (distLe tk) res).take k
        else List.insertionSort (distLe tk) res).map (fun r => r.checksum)).Nodup ∧
      ∀ r ∈ (if k < (List.insertionSort (distLe tk) res).length
          then (List.insertionSort (distLe tk) res).take k
          else List.insertionSort (distLe tk) res), r.checksum ≠ selfCk := by
  have hperm := List.perm_insertionSort (distLe tk) res
  have hnd2 : ((List.insertionSort (distLe tk) res).map (fun r => r.checksum)).Nodup :=
    List.Perm.nodup ((hperm.map (fun r => r.checksum)).symm) hnd
  constructor
  · split
    · exact List.Sublist.nodup (List.Sublist.map _ (List.take_sublist k _)) hnd2
    · exact hnd2
  · intro r hr
    have hr2 : r ∈ List.insertionSort (distLe tk) res := by
      revert hr
      split
      · exact fun hr => (List.take_sublist k _).subset hr
      · exact fun hr => hr
    exact hns r (hperm.subset hr2)

/-- Claim C9: the list returned by `FindNode` has pairwise-distinct checksums
and never contains an ID whose checksum is the local node's own checksum, for
every target, `k`, `a ≥ 1`, `d ≥ 1` (and any lookup oracle and fuel), given
the spec's table invariant that each checksum occurs at most once across the
buckets. -/
theorem findNode_distinct_no_self (lookupFn : ID → Option (List ID)) (t : Table)
    (target : ID) (k a d fuel : Nat)
    (hnd : (t.buckets.flatten.map (fun id => id.checksum)).Nodup)
    (_ha : 1 ≤ a) (_hd : 1 ≤ d) :
    ((FindNode lookupFn t target k a d fuel).map (fun r => r.checksum)).Nodup ∧
      ∀ r ∈ FindNode lookupFn t target k a d fuel, r.checksum ≠ t.self.checksum := by
  have hinv0 : FNInv t.self.checksum
      { visited := t.self.checksum :: target.checksum ::
          (FindClosest t target k).map (fun id => id.checksum)
        results := FindClosest t target k } := by
    refine ⟨findClosest_nodup t target k hnd, ?_, List.mem_cons_self _ _, ?_⟩
    · intro r hr
      exact List.mem_cons_of_mem _
        (List.mem_cons_of_mem _ (List.mem_map_of_mem _ hr))
    · exact fun r hr => findClosest_no_self t target k r hr
  have hfin := fnGroups_inv t.self.checksum lookupFn a fuel
    (roundRobin d (FindClosest t target k)) _ hinv0
  obtain ⟨hndf, _, _, hnself⟩ := hfin
  exact sortTrunc_nodup_no_self target.checksum t.self.checksum k
    (fnGather lookupFn t target k a d fuel).results hndf hnself

/-- Witness for C9: `FindNode` at a concrete table, oracle, `a = 1` and
`d = 2` satisfies distinctness and self-exclusion. -/
theorem findNode_distinct_no_self_witness :
    ((FindNode lookup9 t9 target9 16 1 2 4).map (fun r => r.checksum)).Nodup ∧
      ∀ r ∈ FindNode lookup9 t9 target9 16 1 2 4, r.checksum ≠ t9.self.checksum :=
  findNode_distinct_no_self lookup9 t9 target9 16 1 2 4 (by decide) (by decide) (by decide)

end Skademlia

namespace NetworkPkg

theorem processPeer_inv (idSize : Nat) (ownHex targetHex : List Nat) (st : BState)
    (p : PeerID) (h : BInv idSize ownHex targetHex st) :
    BInv idSize ownHex targetHex (processPeer idSize st p) := by
  obtain ⟨ha, hp, hnd, hvis, hown, htgt, hexcl⟩ := h
  unfold processPeer
  by_cases hv : hexOf p.publicKey ∈ st.visited
  · rw [if_pos hv]
    exact ⟨ha, hp, hnd, hvis, hown, htgt, hexcl⟩
  · rw [if_neg hv]
    refine ⟨?_, ?_, ?_, ?_, ?_, ?_, ?_⟩
    · simp [ha]
    · simp [hp]
    · rw [List.map_append, List.nodup_append]
      refine ⟨hnd, List.nodup_singleton _, ?_⟩
      intro x hx hx2
      simp only [List.map_cons, List.map_nil, List.mem_singleton] at hx2
      subst hx2
      rcases List.mem_map.mp hx with ⟨c, hc, hcx⟩
      exact hv (hcx ▸ hvis c hc)
    · intro c hc
      rcases List.mem_append.mp hc with hc | hc
      · exact List.mem_cons_of_mem _ (hvis c hc)
      · rw [List.mem_singleton] at hc
        subst hc
        exact List.mem_cons_self _ _
    · exact List.mem_cons_of_mem _ hown
    · exact List.mem_cons_of_mem _ htgt
    · rw [List.all_append, Bool.and_eq_true]
      refine ⟨hexcl, ?_⟩
      simp only [List.all_cons, List.all_nil, Bool.and_true, Bool.and_eq_true,
        bne_iff_ne, ne_eq]
      constructor
      · intro hc
        exact hv (by rw [hc]; exact hown)
      · intro hc
        exact hv (by rw [hc]; exact htgt)

theorem foldl_processPeer_inv (idSize : Nat) (ownHex targetHex : List Nat) :
    ∀ (resp : List PeerID) (st : BState), BInv idSize ownHex targetHex st →
      BInv idSize ownHex targetHex (resp.foldl (processPeer idSize) st) := by
  intro resp
  induction resp with
  | nil => exact fun st h => h
  | cons p rest ih =>
    intro st h
    rw [List.foldl_cons]
    exact ih _ (processPeer_inv idSize ownHex targetHex st p h)

theorem processRound_inv (lookup : PeerID → Option (List PeerID)) (idSize : Nat)
    (ownHex targetHex : List Nat) :
    ∀ (queue : List PeerID) (st : BState), BInv idSize ownHex targetHex st →
      BInv idSize ownHex targetHex (processRound lookup idSize queue st) := by
  intro queue
  induction queue with
  | nil => exact fun st h => h
  | cons q rest ih =>
    intro st h
    show BInv idSize ownHex targetHex ((q :: rest).foldl _ st)
    rw [List.foldl_cons]
    apply ih
    rcases hl : lookup q with _ | resp <;> simp only [hl]
    · exact h
    · exact foldl_processPeer_inv idSize ownHex targetHex resp st h

theorem bootstrapLoop_inv (lookup : PeerID → Option (List PeerID)) (idSize : Nat)
    (ownHex targetHex : List Nat) :
    ∀ (fuel : Nat) (st : BState), BInv idSize ownHex targetHex st →
      BInv idSize ownHex targetHex (bootstrapLoop lookup idSize fuel st) := by
  intro fuel
  induction fuel with
  | zero => exact fun st h => h
  | succ fuel ih =>
    intro st h
    rw [bootstrapLoop]
    by_cases he : st.queue.isEmpty
    · rw [if_pos he]
      exact h
    · rw [if_neg he]
      apply ih
      apply processRound_inv
      exact h

theorem bootstrapInit_inv (idSize : Nat) (ownPk : List Nat) (target : PeerID) :
    BInv idSize (hexOf ownPk) (hexOf target.publicKey) (bootstrapInit ownPk target) := by
  refine ⟨rfl, rfl, List.nodup_nil, ?_, ?_, ?_, rfl⟩
  · exact fun c hc => absurd hc (List.not_mem_nil c)
  · exact List.mem_cons_self _ _
  · exact List.mem_cons_of_mem _ (List.mem_cons_self _ _)

/-- Claim C10: in every run of `BootstrapPeers`, the `addresses` and
`publicKeys` slices have equal length; the entries at each index are the
address and the `IdSize`-fitted public key of one and the same discovered
peer (the index-aligned `bootstrapContributors` list); each discovered peer
contributes at most one entry (contributor public-key hexes are pairwise
distinct); and no contributor carries the node's own public-key hex or the
initial target's hex. -/
theorem bootstrapPeers_invariants (lookup : PeerID → Option (List PeerID)) (idSize : Nat)
    (ownPk : List Nat) (target : PeerID) (fuel : Nat) :
    (BootstrapPeers lookup idSize ownPk target fuel).1.length =
      (BootstrapPeers lookup idSize ownPk target fuel).2.length ∧
    (BootstrapPeers lookup idSize ownPk target fuel).1 =
      (bootstrapContributors lookup idSize ownPk target fuel).map (fun c => c.address) ∧
    (BootstrapPeers lookup idSize ownPk target fuel).2 =
      (bootstrapContributors lookup idSize ownPk target fuel).map
        (fun c => fitTo idSize c.publicKey) ∧
    ((bootstrapContributors lookup idSize ownPk target fuel).map
      (fun c => hexOf c.publicKey)).Nodup ∧
    ((bootstrapContributors lookup idSize ownPk target fuel).all fun c =>
      (hexOf c.publicKey != hexOf ownPk) &&
        (hexOf c.publicKey != hexOf target.publicKey)) = true := by
  obtain ⟨h1, h2, h3, _, _, _, h7⟩ := bootstrapLoop_inv lookup idSize (hexOf ownPk)
    (hexOf target.publicKey) fuel (bootstrapInit ownPk target)
    (bootstrapInit_inv idSize ownPk target)
  refine ⟨?_, h1, h2, h3, h7⟩
  show (bootstrapLoop lookup idSize fuel (bootstrapInit ownPk target)).addresses.length =
    (bootstrapLoop lookup idSize fuel (bootstrapInit ownPk target)).publicKeys.length
  rw [h1, h2]
  simp [List.length_map]

end NetworkPkg
